import Mathlib

/-!
Verification of `lineprof.py`, a live line-granularity profiler.

The development shallowly embeds the pieces of the program the claims
are about:

* the AST instrumenter `annotate` (lines 15-44 of the source),
* the timing accumulator `LineProf` (lines 46-75),
* the scroll handling of `Reporter.input_thread` (lines 112-124),
* the frequency-band formatting of `Reporter.draw_thread` (lines 143-151).

Python's `annotate` mutates the statement list in place: it iterates over
the indices of the original list (the `range(len(body))` bound is taken
once, before any insertion), keeps an `offset` equal to the number of
nodes inserted so far, and addresses the i-th original statement as
`body[i + offset]`.  Inserting `pre` at that index and `post` two places
later brackets exactly that statement, so a single pass is equivalent to
the statement-by-statement flat-map implemented below.

Timestamps are modelled as rational numbers (`time.monotonic` returns
float seconds; the claims are about the update structure, not float
rounding).  The several `time.monotonic()` calls made during one handler
invocation are modelled as a single instant.  Python `dict` is modelled
as an insertion-ordered association list and `collections.defaultdict`
as an association list paired with the default value; `d[k]` on a
defaultdict inserts the default on a missing key, which the model
reproduces.
-/

set_option autoImplicit false

/-- The three hook procedures of the accumulator that instrumentation
inserts calls to: `_lineprof.line_pre`, `_lineprof.line_post`,
`_lineprof.exit_pre`. -/
inductive HookFn : Type where
  | line_pre
  | line_post
  | exit_pre
deriving DecidableEq, Repr

/-- The expression carried by an `ast.Expr` statement: either a hook call
`_lineprof.<fn>(<arg>)` (the shape produced by
`ast.parse(f'_lineprof.line_pre({node.lineno})').body[0]`), or any other
user expression, identified abstractly. -/
inductive PyExpr : Type where
  | hookCall (fn : HookFn) (arg : Nat)
  | userExpr (id : Nat)
deriving DecidableEq, Repr

/-- Python statement nodes, restricted to the kinds `annotate`
distinguishes.  Each node carries its source line number (`node.lineno`).
`ifStmt`/`whileStmt`/`forStmt` carry `body` and `orelse` blocks,
`tryStmt` carries `body`, the handler bodies, `orelse` and `finalbody`,
and `functionDef`/`classDef`/`withStmt` carry a `body`.  `other` stands
for any statement kind not matched by `annotate` (the `WARNING`
branch). -/
inductive Stmt : Type where
  | expr (lineno : Nat) (value : PyExpr)
  | assign (lineno : Nat)
  | delete (lineno : Nat)
  | augAssign (lineno : Nat)
  | imprt (lineno : Nat)
  | importFrom (lineno : Nat)
  | ret (lineno : Nat)
  | brk (lineno : Nat)
  | cont (lineno : Nat)
  | ifStmt (lineno : Nat) (body orelse : List Stmt)
  | whileStmt (lineno : Nat) (body orelse : List Stmt)
  | forStmt (lineno : Nat) (body orelse : List Stmt)
  | tryStmt (lineno : Nat) (body : List Stmt) (handlers : List (List Stmt))
      (orelse finalbody : List Stmt)
  | functionDef (lineno : Nat) (body : List Stmt)
  | classDef (lineno : Nat) (body : List Stmt)
  | withStmt (lineno : Nat) (body : List Stmt)
  | other (lineno : Nat)

/-- Line number carried by a statement node. -/
def stmtLineno : Stmt → Nat
  | .expr l _ => l
  | .assign l => l
  | .delete l => l
  | .augAssign l => l
  | .imprt l => l
  | .importFrom l => l
  | .ret l => l
  | .brk l => l
  | .cont l => l
  | .ifStmt l _ _ => l
  | .whileStmt l _ _ => l
  | .forStmt l _ _ => l
  | .tryStmt l _ _ _ _ => l
  | .functionDef l _ => l
  | .classDef l _ => l
  | .withStmt l _ => l
  | .other l => l

/-- The statement `_lineprof.line_pre(n)` inserted before a measurable
statement.  `ast.parse` gives the generated node line number 1. -/
def linePreStmt (n : Nat) : Stmt := .expr 1 (.hookCall .line_pre n)

/-- The statement `_lineprof.line_post(n)` inserted after a measurable
statement. -/
def linePostStmt (n : Nat) : Stmt := .expr 1 (.hookCall .line_post n)

/-- The statement `_lineprof.exit_pre(n)` inserted before a
control-transfer statement. -/
def exitPreStmt (n : Nat) : Stmt := .expr 1 (.hookCall .exit_pre n)

/-- The check `isinstance(node, (ast.Expr, ast.Assign, ast.Delete, ast.AugAssign,
ast.Import, ast.ImportFrom))`: the measurable statement kinds. -/
def isMeasurable : Stmt → Bool
  | .expr _ _ => true
  | .assign _ => true
  | .delete _ => true
  | .augAssign _ => true
  | .imprt _ => true
  | .importFrom _ => true
  | _ => false

/-- The check `isinstance(node, (ast.Return, ast.Break, ast.Continue))`: the
control-transfer statement kinds. -/
def isTransfer : Stmt → Bool
  | .ret _ => true
  | .brk _ => true
  | .cont _ => true
  | _ => false

/-- Is this statement an end hook, i.e. a `_lineprof.line_post(_)`
call? -/
def isEndHook : Stmt → Bool
  | .expr _ (.hookCall .line_post _) => true
  | _ => false

/-- Is this statement a mark hook, i.e. a `_lineprof.exit_pre(_)`
call? -/
def isMarkHook : Stmt → Bool
  | .expr _ (.hookCall .exit_pre _) => true
  | _ => false

mutual

/-- The segment of output statements `annotate` produces for one input
statement: measurable statements are bracketed by `line_pre`/`line_post`
calls on their line number, control-transfer statements are preceded by
an `exit_pre` call, compound statements keep their node with each nested
block annotated recursively, and unrecognized statements are passed
through (after a non-fatal warning). -/
def annotateStmt : Stmt → List Stmt
  | .expr l v => [linePreStmt l, .expr l v, linePostStmt l]
  | .assign l => [linePreStmt l, .assign l, linePostStmt l]
  | .delete l => [linePreStmt l, .delete l, linePostStmt l]
  | .augAssign l => [linePreStmt l, .augAssign l, linePostStmt l]
  | .imprt l => [linePreStmt l, .imprt l, linePostStmt l]
  | .importFrom l => [linePreStmt l, .importFrom l, linePostStmt l]
  | .ret l => [exitPreStmt l, .ret l]
  | .brk l => [exitPreStmt l, .brk l]
  | .cont l => [exitPreStmt l, .cont l]
  | .ifStmt l b o => [.ifStmt l (annotate b) (annotate o)]
  | .whileStmt l b o => [.whileStmt l (annotate b) (annotate o)]
  | .forStmt l b o => [.forStmt l (annotate b) (annotate o)]
  | .tryStmt l b hs o f =>
      [.tryStmt l (annotate b) (annotateHandlers hs) (annotate o) (annotate f)]
  | .functionDef l b => [.functionDef l (annotate b)]
  | .classDef l b => [.classDef l (annotate b)]
  | .withStmt l b => [.withStmt l (annotate b)]
  | .other l => [.other l]

/-- The loop `for handler in node.handlers: annotate(handler.body)`. -/
def annotateHandlers : List (List Stmt) → List (List Stmt)
  | [] => []
  | h :: t => annotate h :: annotateHandlers t

/-- The function `annotate(body)` of the source, as the equivalent flat-map (see the
file header for why the in-place index arithmetic amounts to this). -/
def annotate : List Stmt → List Stmt
  | [] => []
  | s :: t => annotateStmt s ++ annotate t

end

example :
    annotate [.assign 1, .ret 2] =
      [linePreStmt 1, .assign 1, linePostStmt 1, exitPreStmt 2, .ret 2] := rfl

example :
    annotate [.ifStmt 1 [.assign 2] [.brk 3]] =
      [.ifStmt 1 [linePreStmt 2, .assign 2, linePostStmt 2]
        [exitPreStmt 3, .brk 3]] := rfl

mutual

/-- Specification relation, following the wording of the spec's
classification rules (section 4.1): one original statement and the
output segment standing for it.  A measurable statement is surrounded by
a begin hook immediately before and an end hook immediately after, both
parameterized by the statement's original line number; a
control-transfer statement gets exactly one mark hook immediately
before it and nothing after; structured statements, exception handlers
and definition bodies are not wrapped, their nested blocks being related
recursively; unrecognized statements are left unmodified. -/
inductive InstrStmt : Stmt → List Stmt → Prop where
  | measurable (s : Stmt) (h : isMeasurable s = true) :
      InstrStmt s [linePreStmt (stmtLineno s), s, linePostStmt (stmtLineno s)]
  | transfer (s : Stmt) (h : isTransfer s = true) :
      InstrStmt s [exitPreStmt (stmtLineno s), s]
  | ifS (l : Nat) (b o b' o' : List Stmt) :
      InstrBlock b b' → InstrBlock o o' →
      InstrStmt (.ifStmt l b o) [.ifStmt l b' o']
  | whileS (l : Nat) (b o b' o' : List Stmt) :
      InstrBlock b b' → InstrBlock o o' →
      InstrStmt (.whileStmt l b o) [.whileStmt l b' o']
  | forS (l : Nat) (b o b' o' : List Stmt) :
      InstrBlock b b' → InstrBlock o o' →
      InstrStmt (.forStmt l b o) [.forStmt l b' o']
  | tryS (l : Nat) (b o f b' o' f' : List Stmt)
      (hs hs' : List (List Stmt)) :
      InstrBlock b b' → InstrHandlers hs hs' → InstrBlock o o' →
      InstrBlock f f' →
      InstrStmt (.tryStmt l b hs o f) [.tryStmt l b' hs' o' f']
  | funcS (l : Nat) (b b' : List Stmt) :
      InstrBlock b b' → InstrStmt (.functionDef l b) [.functionDef l b']
  | classS (l : Nat) (b b' : List Stmt) :
      InstrBlock b b' → InstrStmt (.classDef l b) [.classDef l b']
  | withS (l : Nat) (b b' : List Stmt) :
      InstrBlock b b' → InstrStmt (.withStmt l b) [.withStmt l b']
  | unknown (l : Nat) : InstrStmt (.other l) [.other l]

/-- Each exception handler's block is instrumented independently. -/
inductive InstrHandlers : List (List Stmt) → List (List Stmt) → Prop where
  | nil : InstrHandlers [] []
  | cons (h h' : List Stmt) (t t' : List (List Stmt)) :
      InstrBlock h h' → InstrHandlers t t' →
      InstrHandlers (h :: t) (h' :: t')

/-- A block is instrumented by replacing each original statement, in
order, by its segment: the output is the concatenation of the per-
statement segments, so every original statement is preserved unchanged
in relative order. -/
inductive InstrBlock : List Stmt → List Stmt → Prop where
  | nil : InstrBlock [] []
  | cons (s : Stmt) (seg : List Stmt) (t out : List Stmt) :
      InstrStmt s seg → InstrBlock t out →
      InstrBlock (s :: t) (seg ++ out)

end

mutual

theorem annotateStmt_instr : ∀ s : Stmt, InstrStmt s (annotateStmt s)
  | .expr l v => InstrStmt.measurable (.expr l v) rfl
  | .assign l => InstrStmt.measurable (.assign l) rfl
  | .delete l => InstrStmt.measurable (.delete l) rfl
  | .augAssign l => InstrStmt.measurable (.augAssign l) rfl
  | .imprt l => InstrStmt.measurable (.imprt l) rfl
  | .importFrom l => InstrStmt.measurable (.importFrom l) rfl
  | .ret l => InstrStmt.transfer (.ret l) rfl
  | .brk l => InstrStmt.transfer (.brk l) rfl
  | .cont l => InstrStmt.transfer (.cont l) rfl
  | .ifStmt l b o =>
      InstrStmt.ifS l b o _ _ (annotate_instr b) (annotate_instr o)
  | .whileStmt l b o =>
      InstrStmt.whileS l b o _ _ (annotate_instr b) (annotate_instr o)
  | .forStmt l b o =>
      InstrStmt.forS l b o _ _ (annotate_instr b) (annotate_instr o)
  | .tryStmt l b hs o f =>
      InstrStmt.tryS l b o f _ _ _ hs _ (annotate_instr b)
        (annotateHandlers_instr hs) (annotate_instr o) (annotate_instr f)
  | .functionDef l b => InstrStmt.funcS l b _ (annotate_instr b)
  | .classDef l b => InstrStmt.classS l b _ (annotate_instr b)
  | .withStmt l b => InstrStmt.withS l b _ (annotate_instr b)
  | .other l => InstrStmt.unknown l

theorem annotateHandlers_instr :
    ∀ hs : List (List Stmt), InstrHandlers hs (annotateHandlers hs)
  | [] => InstrHandlers.nil
  | h :: t =>
      InstrHandlers.cons h _ t _ (annotate_instr h) (annotateHandlers_instr t)

theorem annotate_instr : ∀ body : List Stmt, InstrBlock body (annotate body)
  | [] => InstrBlock.nil
  | s :: t =>
      InstrBlock.cons s _ t _ (annotateStmt_instr s) (annotate_instr t)

end

theorem annotate_append (xs ys : List Stmt) :
    annotate (xs ++ ys) = annotate xs ++ annotate ys := by
  induction xs with
  | nil => simp [annotate]
  | cons s t ih => simp [annotate, ih]

theorem annotateStmt_ne_nil (s : Stmt) : annotateStmt s ≠ [] := by
  cases s <;> simp [annotateStmt]

/-- The first element of any instrumented segment is never an end hook:
segments start with a begin hook, a mark hook, or the original
statement itself. -/
theorem annotateStmt_head_not_end (s : Stmt) (hd : Stmt)
    (h : (annotateStmt s).head? = some hd) : isEndHook hd = false := by
  cases s <;>
    simp [annotateStmt, linePreStmt, exitPreStmt] at h <;>
    simp [← h, isEndHook]

/-- The first element of an instrumented block is never an end hook. -/
theorem annotate_head_not_end (body : List Stmt) (hd : Stmt)
    (h : (annotate body).head? = some hd) : isEndHook hd = false := by
  cases body with
  | nil => simp [annotate] at h
  | cons s t =>
      rw [annotate, List.head?_append_of_ne_nil _ (annotateStmt_ne_nil s)] at h
      exact annotateStmt_head_not_end s hd h

/-- The last element of any instrumented segment is never a mark hook:
segments end with an end hook or with the original statement itself. -/
theorem annotateStmt_last_not_mark (s : Stmt) (x : Stmt)
    (h : (annotateStmt s).getLast? = some x) : isMarkHook x = false := by
  cases s <;>
    simp [annotateStmt, List.getLast?, linePostStmt] at h <;>
    simp [← h, isMarkHook]

/-- The last element of an instrumented block is never a mark hook. -/
theorem annotate_last_not_mark (body : List Stmt) (x : Stmt)
    (h : (annotate body).getLast? = some x) : isMarkHook x = false := by
  induction body with
  | nil => simp [annotate] at h
  | cons s t ih =>
      rw [annotate] at h
      cases ht : annotate t with
      | nil =>
          rw [ht, List.append_nil] at h
          exact annotateStmt_last_not_mark s x h
      | cons y ys =>
          rw [ht, List.getLast?_append_of_ne_nil _ (by simp)] at h
          rw [← ht] at h
          exact ih h

mutual

/-- Number of mark hooks (`_lineprof.exit_pre` calls) in one statement,
counting recursively inside every nested block. -/
def marksStmt : Stmt → Nat
  | .expr l v => if isMarkHook (.expr l v) then 1 else 0
  | .ifStmt _ b o => marks b + marks o
  | .whileStmt _ b o => marks b + marks o
  | .forStmt _ b o => marks b + marks o
  | .tryStmt _ b hs o f => marks b + marksH hs + marks o + marks f
  | .functionDef _ b => marks b
  | .classDef _ b => marks b
  | .withStmt _ b => marks b
  | _ => 0

def marksH : List (List Stmt) → Nat
  | [] => 0
  | h :: t => marks h + marksH t

/-- Number of mark hooks in a block, at every nesting depth. -/
def marks : List Stmt → Nat
  | [] => 0
  | s :: t => marksStmt s + marks t

end

mutual

/-- Number of control-transfer statements (`return`, `break`,
`continue`) in one statement, counting recursively inside every nested
block. -/
def transfersStmt : Stmt → Nat
  | .ret _ => 1
  | .brk _ => 1
  | .cont _ => 1
  | .ifStmt _ b o => transfers b + transfers o
  | .whileStmt _ b o => transfers b + transfers o
  | .forStmt _ b o => transfers b + transfers o
  | .tryStmt _ b hs o f => transfers b + transfersH hs + transfers o + transfers f
  | .functionDef _ b => transfers b
  | .classDef _ b => transfers b
  | .withStmt _ b => transfers b
  | _ => 0

def transfersH : List (List Stmt) → Nat
  | [] => 0
  | h :: t => transfers h + transfersH t

/-- Number of control-transfer statements in a block, at every nesting
depth. -/
def transfers : List Stmt → Nat
  | [] => 0
  | s :: t => transfersStmt s + transfers t

end

theorem marks_append (xs ys : List Stmt) :
    marks (xs ++ ys) = marks xs + marks ys := by
  induction xs with
  | nil => simp [marks]
  | cons s t ih => simp [marks, ih]; omega

mutual

theorem marks_annotateStmt :
    ∀ s : Stmt, marks (annotateStmt s) = transfersStmt s + marksStmt s
  | .expr l v => by
      cases v <;>
        simp [annotateStmt, marks, marksStmt, transfersStmt, linePreStmt,
          linePostStmt, isMarkHook]
  | .assign l => rfl
  | .delete l => rfl
  | .augAssign l => rfl
  | .imprt l => rfl
  | .importFrom l => rfl
  | .ret l => rfl
  | .brk l => rfl
  | .cont l => rfl
  | .ifStmt l b o => by
      simp [annotateStmt, marks, marksStmt, transfersStmt,
        marks_annotate b, marks_annotate o]
      omega
  | .whileStmt l b o => by
      simp [annotateStmt, marks, marksStmt, transfersStmt,
        marks_annotate b, marks_annotate o]
      omega
  | .forStmt l b o => by
      simp [annotateStmt, marks, marksStmt, transfersStmt,
        marks_annotate b, marks_annotate o]
      omega
  | .tryStmt l b hs o f => by
      simp [annotateStmt, marks, marksStmt, transfersStmt,
        marks_annotate b, marks_annotate o, marks_annotate f,
        marksH_annotateHandlers hs]
      omega
  | .functionDef l b => by
      simp [annotateStmt, marks, marksStmt, transfersStmt, marks_annotate b]
  | .classDef l b => by
      simp [annotateStmt, marks, marksStmt, transfersStmt, marks_annotate b]
  | .withStmt l b => by
      simp [annotateStmt, marks, marksStmt, transfersStmt, marks_annotate b]
  | .other l => rfl

theorem marksH_annotateHandlers :
    ∀ hs : List (List Stmt),
      marksH (annotateHandlers hs) = transfersH hs + marksH hs
  | [] => rfl
  | h :: t => by
      simp [annotateHandlers, marksH, transfersH, marks_annotate h,
        marksH_annotateHandlers t]
      omega

theorem marks_annotate :
    ∀ body : List Stmt, marks (annotate body) = transfers body + marks body
  | [] => rfl
  | s :: t => by
      rw [annotate, marks_append, marks_annotateStmt s, marks_annotate t,
        transfers, marks]
      omega

end

theorem annotateStmt_transfer (s : Stmt) (h : isTransfer s = true) :
    annotateStmt s = [exitPreStmt (stmtLineno s), s] := by
  cases s <;> simp [isTransfer] at h <;> rfl

/-- C1: for every block of statement nodes, the instrumenter returns a
block that preserves every original statement unchanged in relative
order, with a begin hook immediately before and an end hook immediately
after every measurable statement (expression, assignment, deletion,
compound assignment, import), both parameterized by the statement's
original line number, recursively to arbitrary nesting depth inside
conditionals, loops, else clauses, exception handlers, and definition
bodies. -/
theorem c1_annotate_instruments_measurables (body : List Stmt) :
    InstrBlock body (annotate body) :=
  annotate_instr body

/-- C2: for every control-transfer statement (`return`, `break`,
`continue`) in any block, the instrumenter inserts exactly one mark hook
immediately before it, parameterized by its line number, and no end hook
after it: the instrumented block is the instrumented prefix, then the
mark hook, then the statement itself, then the instrumented suffix; the
instrumented suffix never starts with an end hook, the instrumented
prefix never ends with a mark hook, and the number of mark hooks in the
whole output is the number of control-transfer statements plus the marks
already present in the input, at every nesting depth. -/
theorem c2_annotate_transfer_mark_only (body pre post : List Stmt) (s : Stmt)
    (hb : body = pre ++ s :: post) (ht : isTransfer s = true) :
    annotate body = annotate pre ++ exitPreStmt (stmtLineno s) :: s :: annotate post
    ∧ (∀ hd, (annotate post).head? = some hd → isEndHook hd = false)
    ∧ (∀ x, (annotate pre).getLast? = some x → isMarkHook x = false)
    ∧ marks (annotate body) = transfers body + marks body := by
  subst hb
  refine ⟨?_, annotate_head_not_end post, annotate_last_not_mark pre,
    marks_annotate _⟩
  rw [annotate_append, annotate, annotateStmt_transfer s ht]
  simp

/-- Witness for C2 at the concrete block `x = 1; return y`. -/
theorem c2_annotate_transfer_mark_only_witness :
    annotate [Stmt.assign 1, Stmt.ret 2] =
      annotate [Stmt.assign 1] ++ exitPreStmt 2 :: Stmt.ret 2 :: annotate []
    ∧ (∀ hd, (annotate ([] : List Stmt)).head? = some hd → isEndHook hd = false)
    ∧ (∀ x, (annotate [Stmt.assign 1]).getLast? = some x → isMarkHook x = false)
    ∧ marks (annotate [Stmt.assign 1, Stmt.ret 2]) =
        transfers [Stmt.assign 1, Stmt.ret 2] + marks [Stmt.assign 1, Stmt.ret 2] :=
  c2_annotate_transfer_mark_only [Stmt.assign 1, Stmt.ret 2]
    [Stmt.assign 1] [] (Stmt.ret 2) rfl rfl

/-! ## The accumulator `LineProf` -/

/-- Wall-clock instants and durations from `time.monotonic()`. -/
abbrev Time := Rat

/-- Lookup in a Python `dict` modelled as an insertion-ordered
association list; `none` is a `KeyError`. -/
def dictLookup? {α : Type} : List (Nat × α) → Nat → Option α
  | [], _ => none
  | (k', v) :: t, k => if k' = k then some v else dictLookup? t k

/-- Assignment `d[k] = v` on a Python `dict`: replace in place when the key exists,
append otherwise. -/
def dictInsert {α : Type} : List (Nat × α) → Nat → α → List (Nat × α)
  | [], k, v => [(k, v)]
  | (k', v') :: t, k, v =>
      if k' = k then (k, v) :: t else (k', v') :: dictInsert t k v

theorem dictLookup_insert_self {α : Type} (d : List (Nat × α)) (k : Nat) (v : α) :
    dictLookup? (dictInsert d k v) k = some v := by
  induction d with
  | nil => simp [dictInsert, dictLookup?]
  | cons p t ih =>
      by_cases h : p.1 = k <;>
        simp [dictInsert, dictLookup?, h, ih]

theorem dictLookup_insert_other {α : Type} (d : List (Nat × α)) (k j : Nat)
    (v : α) (hkj : k ≠ j) :
    dictLookup? (dictInsert d k v) j = dictLookup? d j := by
  induction d with
  | nil => simp [dictInsert, dictLookup?, hkj]
  | cons p t ih =>
      by_cases h : p.1 = k <;>
        simp [dictInsert, dictLookup?, h, hkj, ih]

theorem dictLookup_append_right {α : Type} (d : List (Nat × α)) (k j : Nat)
    (v : α) (h : dictLookup? d j = none) :
    dictLookup? (d ++ [(k, v)]) j = if k = j then some v else none := by
  induction d with
  | nil => simp [dictLookup?]
  | cons p t ih =>
      by_cases hp : p.1 = j <;> simp [dictLookup?, hp] at h ⊢ <;> simp [ih h]

theorem dictLookup_append_left {α : Type} (d : List (Nat × α)) (k j : Nat)
    (v w : α) (h : dictLookup? d j = some w) :
    dictLookup? (d ++ [(k, v)]) j = some w := by
  induction d with
  | nil => simp [dictLookup?] at h
  | cons p t ih =>
      by_cases hp : p.1 = j <;> simp [dictLookup?, hp] at h ⊢ <;> simp_all

/-- Model of `collections.defaultdict`: an insertion-ordered association list
together with the default produced by the value factory (`float` gives
`0`, `int` gives `0`). -/
structure DDict (α : Type) where
  entries : List (Nat × α)
  dflt : α
deriving DecidableEq, Repr

/-- A fresh `defaultdict(factory)`. -/
def DDict.empty {α : Type} (a : α) : DDict α := ⟨[], a⟩

/-- The value `d[k]` evaluates to. -/
def DDict.lookup {α : Type} (d : DDict α) (k : Nat) : α :=
  (dictLookup? d.entries k).getD d.dflt

/-- Subscript `d[k]` as executed: reading a missing key inserts the default into
the dictionary (the `defaultdict` side effect). -/
def DDict.getitem {α : Type} (d : DDict α) (k : Nat) : α × DDict α :=
  match dictLookup? d.entries k with
  | some v => (v, d)
  | none => (d.dflt, ⟨d.entries ++ [(k, d.dflt)], d.dflt⟩)

/-- Assignment `d[k] = v`. -/
def DDict.setitem {α : Type} (d : DDict α) (k : Nat) (v : α) : DDict α :=
  ⟨dictInsert d.entries k v, d.dflt⟩

theorem DDict.getitem_fst {α : Type} (d : DDict α) (k : Nat) :
    (d.getitem k).1 = d.lookup k := by
  unfold DDict.getitem DDict.lookup
  cases h : dictLookup? d.entries k <;> simp [h]

theorem DDict.lookup_getitem {α : Type} (d : DDict α) (k j : Nat) :
    ((d.getitem k).2).lookup j = d.lookup j := by
  unfold DDict.getitem DDict.lookup
  cases h : dictLookup? d.entries k with
  | some v => simp
  | none =>
      simp only
      cases hj : dictLookup? d.entries j with
      | some w => rw [dictLookup_append_left _ _ _ _ _ hj]
      | none =>
          rw [dictLookup_append_right _ _ _ _ hj]
          by_cases hkj : k = j <;> simp [hkj, ← hj] <;> simp [hj]

theorem DDict.lookup_setitem_self {α : Type} (d : DDict α) (k : Nat) (v : α) :
    (d.setitem k v).lookup k = v := by
  simp [DDict.setitem, DDict.lookup, dictLookup_insert_self]

theorem DDict.lookup_setitem_other {α : Type} (d : DDict α) (k j : Nat)
    (v : α) (h : k ≠ j) : (d.setitem k v).lookup j = d.lookup j := by
  simp [DDict.setitem, DDict.lookup, dictLookup_insert_other _ _ _ _ h]

theorem DDict.lookup_empty {α : Type} (a : α) (k : Nat) :
    (DDict.empty a).lookup k = a := rfl

/-- One published measurement window: `Reporter.report` stores
`self.data = interval, total_time, evals`.  The accumulator rebinds
fresh dictionaries in `clear` rather than clearing the old ones in
place, so a published pair of dictionaries is never written again by the
accumulator and capturing their value at publish time is faithful. -/
structure Snapshot where
  interval : Time
  line_time : DDict Time
  line_evals : DDict Int
deriving DecidableEq, Repr

/-- The accumulator state of class `LineProf`: `begin_time` is a plain
dict of open start times, `line_time`/`line_evals` are the per-line
cumulative time and evaluation count of the current window
(defaultdicts over `float`/`int`), `last_report` the publish clock. -/
structure LineProf where
  begin_time : List (Nat × Time)
  line_time : DDict Time
  line_evals : DDict Int
  last_report : Time
deriving DecidableEq, Repr

/-- Method `LineProf.clear`: rebind fresh empty defaultdicts and reset the
publish clock to the current instant. -/
def LineProf.clear (s : LineProf) (now : Time) : LineProf :=
  { s with
    line_time := DDict.empty 0
    line_evals := DDict.empty 0
    last_report := now }

/-- Constructor `LineProf.__init__`: empty `begin_time`, then `clear()`. -/
def LineProf.init (now : Time) : LineProf :=
  LineProf.clear ⟨[], DDict.empty 0, DDict.empty 0, now⟩ now

/-- Method `LineProf.line_pre(lineno)`: unconditionally store the current
instant as the open start time of the line. -/
def LineProf.line_pre (s : LineProf) (lineno : Nat) (now : Time) : LineProf :=
  { s with begin_time := dictInsert s.begin_time lineno now }

/-- Method `LineProf.exit_pre(lineno)`: `self.line_evals[lineno] += 1`. -/
def LineProf.exit_pre (s : LineProf) (lineno : Nat) : LineProf :=
  let c := (s.line_evals.getitem lineno).1
  let le := (s.line_evals.getitem lineno).2
  { s with line_evals := le.setitem lineno (c + 1) }

/-- Method `LineProf.report(interval)`: hand the current interval and the
current dictionaries to the reporter (returned here as the published
`Snapshot`), then `clear()`.  A `none` interval is recomputed from the
publish clock, as in the `interval is None` branch. -/
def LineProf.report (s : LineProf) (interval? : Option Time) (now : Time) :
    LineProf × Snapshot :=
  let interval := interval?.getD (now - s.last_report)
  (s.clear now, ⟨interval, s.line_time, s.line_evals⟩)

/-- Method `LineProf.line_post(lineno)`: a `KeyError` on `begin_time` is
`none`; otherwise add `now - begin_time[lineno]` to
`line_time[lineno]`, increment `line_evals[lineno]`, and report when
the time since the last publish exceeds 1 second.  The optional
snapshot is the published window, if any. -/
def LineProf.line_post (s : LineProf) (lineno : Nat) (now : Time) :
    Option (LineProf × Option Snapshot) :=
  match dictLookup? s.begin_time lineno with
  | none => none
  | some t0 =>
      let ct := (s.line_time.getitem lineno).1
      let lt := (s.line_time.getitem lineno).2
      let s1 := { s with line_time := lt.setitem lineno (ct + (now - t0)) }
      let s2 := s1.exit_pre lineno
      let interval := now - s2.last_report
      if 1 < interval then
        some ((s2.report (some interval) now).1,
          some (s2.report (some interval) now).2)
      else
        some (s2, none)

/-- The accumulator calls the instrumented program can make, each
carrying the `time.monotonic()` instant at which it runs (`exit_pre`
never reads the clock). -/
inductive Event : Type where
  | pre (lineno : Nat) (t : Time)
  | mark (lineno : Nat)
  | post (lineno : Nat) (t : Time)
  | flush (t : Time)
deriving DecidableEq, Repr

/-- One accumulator call; `none` is an uncaught `KeyError`, and the
optional snapshot is a publication to the reporter. -/
def step (s : LineProf) : Event → Option (LineProf × Option Snapshot)
  | .pre l t => some (s.line_pre l t, none)
  | .mark l => some (s.exit_pre l, none)
  | .post l t => s.line_post l t
  | .flush t => some ((s.report none t).1, some (s.report none t).2)

/-- Run a sequence of accumulator calls, collecting the published
snapshots in order. -/
def run (s : LineProf) : List Event → Option (LineProf × List Snapshot)
  | [] => some (s, [])
  | e :: es =>
      match step s e with
      | none => none
      | some (s', osnap) =>
          match run s' es with
          | none => none
          | some (s'', snaps) => some (s'', osnap.toList ++ snaps)

/-- The clock instant an event carries, if it reads the clock. -/
def evTime : Event → Option Time
  | .pre _ t => some t
  | .mark _ => none
  | .post _ t => some t
  | .flush t => some t

/-- The clock after an event: unchanged for events that never read it. -/
def nextT (t : Time) (e : Event) : Time := (evTime e).getD t

/-- The events' clock readings are non-decreasing starting from `t`:
`time.monotonic()` never goes backwards. -/
def Chrono : Time → List Event → Prop
  | _, [] => True
  | t, e :: es =>
      match evTime e with
      | none => Chrono t es
      | some te => t ≤ te ∧ Chrono te es

/-- C3: when `line` has an open start time `t0`, `end(line)` succeeds,
adds `now - t0` to `cumulativeTime[line]`, increments `evalCount[line]`
by one, and triggers a flush if and only if the time since the last
publish exceeds the 1-second threshold; the published window, when
there is one, carries the updated values. -/
theorem c3_line_post_accumulates (s : LineProf) (l : Nat) (now t0 : Time)
    (h : dictLookup? s.begin_time l = some t0) :
    ∃ s' o, s.line_post l now = some (s', o)
      ∧ (o.isSome ↔ 1 < now - s.last_report)
      ∧ (∀ snap, o = some snap →
           snap.interval = now - s.last_report
           ∧ snap.line_time.lookup l = s.line_time.lookup l + (now - t0)
           ∧ snap.line_evals.lookup l = s.line_evals.lookup l + 1)
      ∧ (o = none →
           s'.line_time.lookup l = s.line_time.lookup l + (now - t0)
           ∧ s'.line_evals.lookup l = s.line_evals.lookup l + 1) := by
  simp only [LineProf.line_post, h, LineProf.exit_pre, LineProf.report,
    LineProf.clear]
  by_cases hc : 1 < now - s.last_report
  · simp only [hc, if_pos]
    refine ⟨_, _, rfl, by simp, ?_, by simp⟩
    intro snap hsnap
    simp only [Option.some.injEq] at hsnap
    subst hsnap
    refine ⟨rfl, ?_, ?_⟩
    · simp [DDict.lookup_getitem, DDict.lookup_setitem_self,
        DDict.lookup_setitem_other, DDict.getitem_fst]
    · simp [DDict.lookup_getitem, DDict.lookup_setitem_self,
        DDict.lookup_setitem_other, DDict.getitem_fst]
  · simp only [hc, if_neg, if_false]
    refine ⟨_, _, rfl, by simp [hc], by simp, ?_⟩
    intro _
    constructor
    · simp [DDict.lookup_getitem, DDict.lookup_setitem_self, DDict.getitem_fst]
    · simp [DDict.lookup_getitem, DDict.lookup_setitem_self, DDict.getitem_fst]

/-- C5: `begin(line)` on a line that already has an open start time
overwrites the stored start time with the new timestamp; `line_pre` is
total, so reentrant begin without an intervening end is never a
fault. -/
theorem c5_line_pre_overwrites (s : LineProf) (l : Nat) (now t0 : Time)
    (h : dictLookup? s.begin_time l = some t0) :
    dictLookup? ((s.line_pre l now).begin_time) l = some now := by
  simp [LineProf.line_pre, dictLookup_insert_self]

/-- Witness for C5: line 1 opened at instant 2, reopened at instant 5. -/
theorem c5_line_pre_overwrites_witness :
    dictLookup? ((((LineProf.init 0).line_pre 1 2).line_pre 1 5).begin_time) 1
      = some 5 :=
  c5_line_pre_overwrites ((LineProf.init 0).line_pre 1 2) 1 5 2 (by decide)

/-- No accumulator call ever removes an entry from `begin_time`:
`line_post` only rewrites `line_time`/`line_evals`, and `clear` rebinds
only those two dictionaries and the publish clock. -/
theorem line_post_begin_time (s : LineProf) (l : Nat) (now : Time)
    (s' : LineProf) (o : Option Snapshot)
    (h : s.line_post l now = some (s', o)) : s'.begin_time = s.begin_time := by
  simp only [LineProf.line_post] at h
  cases hb : dictLookup? s.begin_time l with
  | none => rw [hb] at h; simp at h
  | some t0 =>
      rw [hb] at h
      simp only at h
      split_ifs at h <;>
        simp only [Option.some.injEq, Prod.mk.injEq] at h <;>
        rw [← h.1] <;> rfl

/-- C9: `end(line)` without a prior `begin(line)` raises a fault (the
failed dictionary lookup is `none`); `begin_time` entries survive every
accumulator call, including a flush; hence once `begin(line)` has run,
`end(line)` succeeds, even in a later window. -/
theorem c9_end_needs_prior_begin :
    (∀ (s : LineProf) (l : Nat) (now : Time),
        dictLookup? s.begin_time l = none → s.line_post l now = none)
    ∧ (∀ (s : LineProf) (e : Event) (s' : LineProf) (o : Option Snapshot),
        step s e = some (s', o) → ∀ (l : Nat) (v : Time),
          dictLookup? s.begin_time l = some v →
          ∃ v', dictLookup? s'.begin_time l = some v')
    ∧ (∀ (s : LineProf) (l : Nat) (now t0 : Time),
        dictLookup? s.begin_time l = some t0 → s.line_post l now ≠ none) := by
  refine ⟨?_, ?_, ?_⟩
  · intro s l now h
    simp [LineProf.line_post, h]
  · intro s e s' o hstep l v hv
    cases e with
    | pre l' t =>
        simp only [step, Option.some.injEq, Prod.mk.injEq] at hstep
        rw [← hstep.1]
        by_cases hl : l' = l
        · subst hl
          exact ⟨t, by simp [LineProf.line_pre, dictLookup_insert_self]⟩
        · exact ⟨v, by
            simp [LineProf.line_pre, dictLookup_insert_other _ _ _ _ hl, hv]⟩
    | mark l' =>
        simp only [step, Option.some.injEq, Prod.mk.injEq] at hstep
        rw [← hstep.1]
        exact ⟨v, hv⟩
    | post l' t =>
        simp only [step] at hstep
        rw [line_post_begin_time s l' t s' o hstep]
        exact ⟨v, hv⟩
    | flush t =>
        simp only [step, Option.some.injEq, Prod.mk.injEq] at hstep
        rw [← hstep.1]
        exact ⟨v, hv⟩
  · intro s l now t0 h
    simp only [LineProf.line_post, h]
    split_ifs <;> simp

/-- Witness for C9: after `begin(1)` and a flush, `end(1)` still
succeeds; on the fresh accumulator it faults. -/
theorem c9_end_needs_prior_begin_witness :
    (LineProf.init 0).line_post 1 2 = none
    ∧ ((((LineProf.init 0).line_pre 1 0).report none 1).1).line_post 1 2 ≠ none := by
  constructor
  · exact c9_end_needs_prior_begin.1 (LineProf.init 0) 1 2 (by decide)
  · exact c9_end_needs_prior_begin.2.2 _ 1 2 0 (by decide)

/-- C10 part: `report` (the flush) resets exactly `line_time`,
`line_evals` and the publish clock, leaving `begin_time` untouched; a
`begin` before a flush followed by an `end` after it therefore
attributes the whole elapsed interval since that `begin` to the new
window. -/
theorem c10_flush_keeps_open_starts :
    (∀ (s : LineProf) (i : Option Time) (now : Time),
        (s.report i now).1 =
          { s with line_time := DDict.empty 0, line_evals := DDict.empty 0,
                   last_report := now })
    ∧ (∀ (s : LineProf) (l : Nat) (t0 : Time) (i : Option Time) (tR now : Time),
        dictLookup? s.begin_time l = some t0 →
        now - tR ≤ 1 →
        ∃ s2, ((s.report i tR).1).line_post l now = some (s2, none)
          ∧ s2.line_time.lookup l = now - t0
          ∧ s2.line_evals.lookup l = 1) := by
  constructor
  · intro s i now
    rfl
  · intro s l t0 i tR now h hle
    simp only [LineProf.report, LineProf.clear, LineProf.line_post,
      LineProf.exit_pre, h]
    rw [if_neg (show ¬ (1 : Rat) < now - tR by linarith)]
    refine ⟨_, rfl, ?_, ?_⟩
    · simp [DDict.lookup_getitem, DDict.lookup_setitem_self,
        DDict.getitem_fst, DDict.lookup_empty]
    · simp [DDict.lookup_getitem, DDict.lookup_setitem_self,
        DDict.getitem_fst, DDict.lookup_empty]

/-- Witness for C10: `begin(1)` at 0, flush at 3, `end(1)` at 7/2:
the new window gets the full 7/2 seconds. -/
theorem c10_flush_keeps_open_starts_witness :
    ∃ s2, ((((LineProf.init 0).line_pre 1 0).report none 3).1).line_post 1 (7/2)
        = some (s2, none)
      ∧ s2.line_time.lookup 1 = 7/2 - 0
      ∧ s2.line_evals.lookup 1 = 1 :=
  c10_flush_keeps_open_starts.2 ((LineProf.init 0).line_pre 1 0) 1 0 none 3 (7/2)
    (by decide) (by norm_num)

/-- Witness for C3: `begin(1)` at 0 then `end(1)` at 2, which crosses
the 1-second threshold and flushes. -/
theorem c3_line_post_accumulates_witness :
    ∃ s' o, (((LineProf.init 0).line_pre 1 0).line_post 1 2) = some (s', o)
      ∧ (o.isSome ↔ 1 < (2 : Time) - ((LineProf.init 0).line_pre 1 0).last_report)
      ∧ (∀ snap, o = some snap →
           snap.interval = (2 : Time) - ((LineProf.init 0).line_pre 1 0).last_report
           ∧ snap.line_time.lookup 1 =
               ((LineProf.init 0).line_pre 1 0).line_time.lookup 1 + ((2 : Time) - 0)
           ∧ snap.line_evals.lookup 1 =
               ((LineProf.init 0).line_pre 1 0).line_evals.lookup 1 + 1)
      ∧ (o = none →
           s'.line_time.lookup 1 =
               ((LineProf.init 0).line_pre 1 0).line_time.lookup 1 + ((2 : Time) - 0)
           ∧ s'.line_evals.lookup 1 =
               ((LineProf.init 0).line_pre 1 0).line_evals.lookup 1 + 1) :=
  c3_line_post_accumulates ((LineProf.init 0).line_pre 1 0) 1 2 0 (by decide)

/-- Running an extended event sequence first replays the original
prefix exactly and then appends the later publications: operations
performed after a publication never alter the snapshots already
published. -/
theorem run_append (s : LineProf) (evs evs' : List Event) (s1 s2 : LineProf)
    (snaps snaps' : List Snapshot)
    (h : run s evs = some (s1, snaps)) (h' : run s1 evs' = some (s2, snaps')) :
    run s (evs ++ evs') = some (s2, snaps ++ snaps') := by
  induction evs generalizing s snaps with
  | nil =>
      simp only [run, Option.some.injEq, Prod.mk.injEq] at h
      rw [← h.1] at h'
      simpa [← h.2] using h'
  | cons e es ih =>
      simp only [run] at h ⊢
      cases hstep : step s e with
      | none => rw [hstep] at h; simp at h
      | some p =>
          obtain ⟨sm, osnap⟩ := p
          rw [hstep] at h
          simp only at h ⊢
          cases hr : run sm es with
          | none => rw [hr] at h; simp at h
          | some q =>
              obtain ⟨sq, snapsq⟩ := q
              rw [hr] at h
              simp only [Option.some.injEq, Prod.mk.injEq] at h
              obtain ⟨he1, he2⟩ := h
              rw [show es.append evs' = es ++ evs' from rfl,
                ih sm snapsq (by rw [hr, he1])]
              simp [← he2]

/-- All per-line values of a published snapshot are non-negative. -/
def SnapNonneg (snap : Snapshot) : Prop :=
  ∀ l, 0 ≤ snap.line_time.lookup l ∧ 0 ≤ snap.line_evals.lookup l

/-- Accumulator state invariant at clock reading `t`: every open start
time is at most `t`, and the per-line cumulative time and evaluation
count are non-negative at every line. -/
def AccInv (t : Time) (s : LineProf) : Prop :=
  (∀ l v, dictLookup? s.begin_time l = some v → v ≤ t)
  ∧ (∀ l, 0 ≤ s.line_time.lookup l)
  ∧ (∀ l, 0 ≤ s.line_evals.lookup l)

theorem inv_init (t : Time) : AccInv t (LineProf.init t) := by
  refine ⟨fun l v h => ?_, fun l => le_refl 0, fun l => le_refl 0⟩
  simp [LineProf.init, LineProf.clear, dictLookup?] at h

theorem inv_clear (t now : Time) (s : LineProf) (hbt : ∀ l v, dictLookup? s.begin_time l = some v → v ≤ t) :
    AccInv t (s.clear now) :=
  ⟨hbt, fun _ => le_refl 0, fun _ => le_refl 0⟩

theorem step_inv (t : Time) (s : LineProf) (e : Event) (s' : LineProf)
    (o : Option Snapshot) (hinv : AccInv t s)
    (hok : ∀ te, evTime e = some te → t ≤ te)
    (hstep : step s e = some (s', o)) :
    AccInv (nextT t e) s' ∧ (∀ snap, o = some snap → SnapNonneg snap) := by
  obtain ⟨hbt, hlt, hle⟩ := hinv
  cases e with
  | pre l te =>
      have hte : t ≤ te := hok te rfl
      simp only [step, Option.some.injEq, Prod.mk.injEq] at hstep
      rw [← hstep.1]
      refine ⟨⟨fun j v hv => ?_, hlt, hle⟩, by simp [← hstep.2]⟩
      simp only [LineProf.line_pre] at hv
      by_cases hj : l = j
      · subst hj
        rw [dictLookup_insert_self] at hv
        have hveq : te = v := Option.some.inj hv
        simp [nextT, evTime, ← hveq]
      · rw [dictLookup_insert_other _ _ _ _ hj] at hv
        exact le_trans (hbt j v hv) hte
  | mark l =>
      simp only [step, Option.some.injEq, Prod.mk.injEq] at hstep
      rw [← hstep.1]
      refine ⟨⟨hbt, hlt, fun j => ?_⟩, by simp [← hstep.2]⟩
      simp only [LineProf.exit_pre]
      by_cases hj : l = j
      · subst hj
        rw [DDict.lookup_setitem_self, DDict.getitem_fst]
        have := hle l
        omega
      · rw [DDict.lookup_setitem_other _ _ _ _ hj, DDict.lookup_getitem]
        exact hle j
  | post l te =>
      have hte : t ≤ te := hok te rfl
      simp only [step, LineProf.line_post] at hstep
      cases hb : dictLookup? s.begin_time l with
      | none => rw [hb] at hstep; simp at hstep
      | some t0 =>
          rw [hb] at hstep
          simp only at hstep
          have ht0 : t0 ≤ te := le_trans (hbt l t0 hb) hte
          have hlt' : ∀ j,
              0 ≤ (((s.line_time.getitem l).2).setitem l
                ((s.line_time.getitem l).1 + (te - t0))).lookup j := by
            intro j
            by_cases hj : l = j
            · subst hj
              rw [DDict.lookup_setitem_self, DDict.getitem_fst]
              have := hlt l
              have : (0 : Time) ≤ te - t0 := by linarith
              linarith [hlt l]
            · rw [DDict.lookup_setitem_other _ _ _ _ hj, DDict.lookup_getitem]
              exact hlt j
          have hle' : ∀ j,
              0 ≤ (((s.line_evals.getitem l).2).setitem l
                ((s.line_evals.getitem l).1 + 1)).lookup j := by
            intro j
            by_cases hj : l = j
            · subst hj
              rw [DDict.lookup_setitem_self, DDict.getitem_fst]
              have := hle l
              omega
            · rw [DDict.lookup_setitem_other _ _ _ _ hj, DDict.lookup_getitem]
              exact hle j
          split_ifs at hstep with hc
          · simp only [Option.some.injEq, Prod.mk.injEq] at hstep
            rw [← hstep.1]
            refine ⟨⟨fun j v hv => le_trans (hbt j v hv) hte,
                fun _ => le_refl 0, fun _ => le_refl 0⟩, ?_⟩
            intro snap hsnap
            rw [← hstep.2] at hsnap
            simp only [LineProf.report, Option.some.injEq] at hsnap
            rw [← hsnap]
            exact fun j => ⟨hlt' j, hle' j⟩
          · simp only [Option.some.injEq, Prod.mk.injEq] at hstep
            rw [← hstep.1]
            exact ⟨⟨fun j v hv => le_trans (hbt j v hv) hte, hlt', hle'⟩,
              by simp [← hstep.2]⟩
  | flush te =>
      have hte : t ≤ te := hok te rfl
      simp only [step, Option.some.injEq, Prod.mk.injEq] at hstep
      rw [← hstep.1]
      refine ⟨⟨fun j v hv => le_trans (hbt j v hv) hte,
          fun _ => le_refl 0, fun _ => le_refl 0⟩, ?_⟩
      intro snap hsnap
      rw [← hstep.2] at hsnap
      simp only [LineProf.report, Option.some.injEq] at hsnap
      rw [← hsnap]
      exact fun j => ⟨hlt j, hle j⟩

/-- Every snapshot published along a chronologically ordered run from a
state satisfying the invariant is non-negative. -/
theorem run_nonneg (evs : List Event) (t : Time) (s : LineProf)
    (s' : LineProf) (snaps : List Snapshot) (hinv : AccInv t s)
    (hch : Chrono t evs) (hrun : run s evs = some (s', snaps)) :
    ∀ snap ∈ snaps, SnapNonneg snap := by
  induction evs generalizing t s snaps with
  | nil =>
      simp only [run, Option.some.injEq, Prod.mk.injEq] at hrun
      rw [← hrun.2]
      intro snap h
      simp at h
  | cons e es ih =>
      simp only [run] at hrun
      cases hstep : step s e with
      | none => rw [hstep] at hrun; simp at hrun
      | some p =>
          obtain ⟨sm, osnap⟩ := p
          rw [hstep] at hrun
          simp only at hrun
          cases hr : run sm es with
          | none => rw [hr] at hrun; simp at hrun
          | some q =>
              obtain ⟨sq, snapsq⟩ := q
              rw [hr] at hrun
              simp only [Option.some.injEq, Prod.mk.injEq] at hrun
              have hok : ∀ te, evTime e = some te → t ≤ te := by
                intro te hte
                simp only [Chrono, hte] at hch
                exact hch.1
              have hch' : Chrono (nextT t e) es := by
                cases hte : evTime e with
                | none => simpa [Chrono, hte, nextT] using hch
                | some te =>
                    simp only [Chrono, hte] at hch
                    simpa [nextT, hte] using hch.2
              obtain ⟨hinv', hsnap⟩ :=
                step_inv t s e sm osnap hinv hok hstep
              intro snap hmem
              rw [← hrun.2] at hmem
              rcases List.mem_append.mp hmem with hmem | hmem
              · cases hp : osnap with
                | none => rw [hp] at hmem; simp at hmem
                | some sn =>
                    rw [hp] at hmem
                    simp only [Option.toList, List.mem_singleton] at hmem
                    rw [hmem]
                    exact hsnap sn hp
              · exact ih (nextT t e) sm snapsq hinv' hch'
                  (by rw [hr, hrun.1]) snap hmem

/-- C4: every flush publishes a Snapshot built from the interval (the
time since the last publish, either passed by `line_post` or recomputed
from the publish clock) and the current per-line maps, then resets both
maps to empty and resets the publish clock; and every snapshot
published along any chronologically ordered run of the accumulator has
non-negative per-line time and count values. -/
theorem c4_flush_resets_window :
    (∀ (s : LineProf) (i : Option Time) (now : Time),
        ((s.report i now).2).interval = i.getD (now - s.last_report)
        ∧ ((s.report i now).2).line_time = s.line_time
        ∧ ((s.report i now).2).line_evals = s.line_evals
        ∧ ((s.report i now).1).line_time.entries = []
        ∧ ((s.report i now).1).line_evals.entries = []
        ∧ (∀ l, ((s.report i now).1).line_time.lookup l = 0
             ∧ ((s.report i now).1).line_evals.lookup l = 0)
        ∧ ((s.report i now).1).last_report = now)
    ∧ (∀ (t0 : Time) (evs : List Event) (s : LineProf) (snaps : List Snapshot),
        Chrono t0 evs → run (LineProf.init t0) evs = some (s, snaps) →
        ∀ snap ∈ snaps, ∀ l,
          0 ≤ snap.line_time.lookup l ∧ 0 ≤ snap.line_evals.lookup l) := by
  constructor
  · intro s i now
    exact ⟨rfl, rfl, rfl, rfl, rfl, fun l => ⟨rfl, rfl⟩, rfl⟩
  · intro t0 evs s snaps hch hrun snap hmem l
    exact run_nonneg evs t0 (LineProf.init t0) s snaps (inv_init t0) hch hrun
      snap hmem l

/-- Witness for C4: `begin(1)` at 0 and `end(1)` at 2 publish one
window whose values are non-negative. -/
theorem c4_flush_resets_window_witness :
    ∀ snap ∈ ([⟨2, ⟨[(1, 2)], 0⟩, ⟨[(1, 1)], 0⟩⟩] : List Snapshot), ∀ l,
      0 ≤ snap.line_time.lookup l ∧ 0 ≤ snap.line_evals.lookup l :=
  c4_flush_resets_window.2 0 [Event.pre 1 0, Event.post 1 2]
    ⟨[(1, 0)], ⟨[], 0⟩, ⟨[], 0⟩, 2⟩ [⟨2, ⟨[(1, 2)], 0⟩, ⟨[(1, 1)], 0⟩⟩]
    (by norm_num [Chrono, evTime]) (by
      norm_num [run, step, LineProf.init, LineProf.clear, LineProf.line_pre,
        LineProf.line_post, LineProf.exit_pre, LineProf.report, DDict.empty,
        DDict.getitem, DDict.setitem, DDict.lookup, dictLookup?, dictInsert])

/-- C7: a published Snapshot is immutable.  Running any further
accumulator events only appends new snapshots after the ones already
published, leaving them untouched; and the renderer's defaultdict reads
(`total_time[lineno]`, `evals[lineno]`) never change the value the
published mapping yields at any key, even though a miss inserts the
default entry. -/
theorem c7_published_snapshot_immutable :
    (∀ (s : LineProf) (evs evs' : List Event) (s1 s2 : LineProf)
        (snaps snaps' : List Snapshot),
        run s evs = some (s1, snaps) → run s1 evs' = some (s2, snaps') →
        run s (evs ++ evs') = some (s2, snaps ++ snaps'))
    ∧ (∀ (α : Type) (d : DDict α) (j k : Nat),
        ((d.getitem j).2).lookup k = d.lookup k) :=
  ⟨fun s evs evs' s1 s2 snaps snaps' h h' =>
      run_append s evs evs' s1 s2 snaps snaps' h h',
    fun _ d j k => DDict.lookup_getitem d j k⟩

/-- Witness for C7: the window published by the first two events is
unchanged after a further `mark` event. -/
theorem c7_published_snapshot_immutable_witness :
    run (LineProf.init 0) ([Event.pre 1 0, Event.post 1 2] ++ [Event.mark 1]) =
      some (⟨[(1, 0)], ⟨[], 0⟩, ⟨[(1, 1)], 0⟩, 2⟩,
        ([⟨2, ⟨[(1, 2)], 0⟩, ⟨[(1, 1)], 0⟩⟩] : List Snapshot) ++ []) :=
  c7_published_snapshot_immutable.1 (LineProf.init 0)
    [Event.pre 1 0, Event.post 1 2] [Event.mark 1]
    ⟨[(1, 0)], ⟨[], 0⟩, ⟨[], 0⟩, 2⟩ ⟨[(1, 0)], ⟨[], 0⟩, ⟨[(1, 1)], 0⟩, 2⟩
    [⟨2, ⟨[(1, 2)], 0⟩, ⟨[(1, 1)], 0⟩⟩] []
    (by
      norm_num [run, step, LineProf.init, LineProf.clear, LineProf.line_pre,
        LineProf.line_post, LineProf.exit_pre, LineProf.report, DDict.empty,
        DDict.getitem, DDict.setitem, DDict.lookup, dictLookup?, dictInsert])
    (by
      norm_num [run, step, LineProf.init, LineProf.clear, LineProf.line_pre,
        LineProf.line_post, LineProf.exit_pre, LineProf.report, DDict.empty,
        DDict.getitem, DDict.setitem, DDict.lookup, dictLookup?, dictInsert])

/-! ## Scroll handling of `Reporter.input_thread` -/

/-- The recognized scroll keys of `input_thread` (the quit key kills
the process and is not a scroll command). -/
inductive Key : Type where
  | j
  | k
  | d
  | u
  | space
deriving DecidableEq, Repr

/-- The increment a key applies to `self.scroll`: one line down or up,
half a viewport down or up (`self.height//2`), or a full viewport
down. -/
def scrollDelta (height : Nat) : Key → Int
  | .j => 1
  | .k => -1
  | .d => (height / 2 : Nat)
  | .u => -((height / 2 : Nat) : Int)
  | .space => (height : Int)

/-- One iteration of the `input_thread` loop on a recognized scroll
key: apply the increment, then `if self.scroll < 0: self.scroll = 0`,
then `if self.scroll > len(self.lines) - self.height + 2:
self.scroll = len(self.lines) - self.height + 2`, in that order. -/
def inputStep (totalLines height : Nat) (scroll : Int) (c : Key) : Int :=
  let s1 := scroll + scrollDelta height c
  let s2 := if s1 < 0 then 0 else s1
  if s2 > (totalLines : Int) - height + 2 then (totalLines : Int) - height + 2
  else s2

/-- A whole sequence of scroll commands. -/
def inputRun (totalLines height : Nat) (scroll : Int) (cs : List Key) : Int :=
  cs.foldl (inputStep totalLines height) scroll

theorem inputStep_bounds (totalLines height : Nat) (scroll : Int) (c : Key)
    (hB : 0 ≤ (totalLines : Int) - height + 2) :
    0 ≤ inputStep totalLines height scroll c
    ∧ inputStep totalLines height scroll c ≤ (totalLines : Int) - height + 2 := by
  unfold inputStep
  dsimp only
  split_ifs <;> omega

/-- C6 counterexample: with an empty source file (0 lines) and a
10-row viewport, a single step-down command drives the scroll offset to
`0 - 10 + 2 = -8`, which is negative: the clamp to the upper bound is
applied after the clamp to 0 and reintroduces a negative value whenever
`totalLines - height + 2 < 0`. -/
theorem c6_scroll_negative_counterexample :
    inputRun 0 10 0 [Key.j] < 0 := by decide

/-- C6 as amended: when `totalLines - viewportHeight + 2 ≥ 0` (the file
is not more than 2 lines shorter than the viewport) and the starting
offset is in range, any sequence of scroll commands keeps the offset in
`[0, totalLines - viewportHeight + 2]`; when
`totalLines - viewportHeight + 2 < 0`, every single command instead
forces the offset to exactly that negative bound. -/
theorem c6_scroll_clamped_amended :
    (∀ (totalLines height : Nat) (scroll : Int) (cs : List Key),
        0 ≤ (totalLines : Int) - height + 2 →
        0 ≤ scroll → scroll ≤ (totalLines : Int) - height + 2 →
        0 ≤ inputRun totalLines height scroll cs
        ∧ inputRun totalLines height scroll cs ≤ (totalLines : Int) - height + 2)
    ∧ (∀ (totalLines height : Nat) (scroll : Int) (c : Key),
        (totalLines : Int) - height + 2 < 0 →
        inputStep totalLines height scroll c = (totalLines : Int) - height + 2) := by
  constructor
  · intro totalLines height scroll cs hB h0 h1
    induction cs generalizing scroll with
    | nil => exact ⟨h0, h1⟩
    | cons c cs ih =>
        have hstep := inputStep_bounds totalLines height scroll c hB
        exact ih (inputStep totalLines height scroll c) hstep.1 hstep.2
  · intro totalLines height scroll c hB
    unfold inputStep
    dsimp only
    split_ifs <;> omega

/-- Witness for the amended C6: a 100-line file in a 10-row viewport,
scrolled from the top by a step, a half page, a full page and a step
up, stays within `[0, 92]`. -/
theorem c6_scroll_clamped_amended_witness :
    0 ≤ inputRun 100 10 0 [Key.j, Key.d, Key.space, Key.k]
    ∧ inputRun 100 10 0 [Key.j, Key.d, Key.space, Key.k] ≤ (100 : Int) - 10 + 2 :=
  c6_scroll_clamped_amended.1 100 10 0 [Key.j, Key.d, Key.space, Key.k]
    (by decide) (by decide) (by decide)

/-! ## Frequency field of `Reporter.draw_thread` -/

/-- The display band chosen for the frequency column: blank, Hz, kHz,
or MHz. -/
inductive FreqBand : Type where
  | blank
  | hz
  | khz
  | mhz
deriving DecidableEq, Repr

/-- The frequency field as computed in `draw_thread` from
`fr = evals[lineno]/interval`: blank when `fr == 0`, plain Hz when
`fr < 1000`, kHz (`fr/1000`) when `fr < 1000000`, MHz (`fr/1000000`)
otherwise.  The pair is the band and the numeric value rendered into
the field (0 for the blank field). -/
def freqField (fr : Rat) : FreqBand × Rat :=
  if fr = 0 then (.blank, 0)
  else if fr < 1000 then (.hz, fr)
  else if fr < 1000000 then (.khz, fr / 1000)
  else (.mhz, fr / 1000000)

/-- The banding as the spec words it: blank if 0; Hz below 1,000; kHz
(value divided by 1,000) when at least 1,000 and below 1,000,000; MHz
(value divided by 1,000,000) otherwise. -/
def freqFieldSpec (fr : Rat) : FreqBand × Rat :=
  if fr = 0 then (.blank, 0)
  else if fr < 1000 then (.hz, fr)
  else if 1000 ≤ fr ∧ fr < 1000000 then (.khz, fr / 1000)
  else (.mhz, fr / 1000000)

/-- A visible line's frequency field, reading `evals[lineno]` the way
`draw_thread` does (a defaultdict access). -/
def drawFreq (interval : Time) (evals : DDict Int) (lineno : Nat) :
    FreqBand × Rat :=
  freqField (((evals.getitem lineno).1 : Rat) / interval)

/-- C8: the rendered frequency field is blank exactly when
`fr = countByLine[L]/intervalSeconds` is 0, Hz below 1,000, kHz (value
divided by 1,000) when at least 1,000 and below 1,000,000, and MHz
(value divided by 1,000,000) otherwise; in particular `fr = 1000`
selects the kHz band. -/
theorem c8_frequency_banding :
    (∀ fr : Rat, freqField fr = freqFieldSpec fr)
    ∧ (∀ (interval : Time) (evals : DDict Int) (lineno : Nat),
        drawFreq interval evals lineno =
          freqFieldSpec (((evals.lookup lineno : Int) : Rat) / interval))
    ∧ (freqField 1000).1 = FreqBand.khz := by
  have heq : ∀ fr : Rat, freqField fr = freqFieldSpec fr := by
    intro fr
    unfold freqField freqFieldSpec
    split_ifs with h1 h2 h3 h4 h5 <;> try rfl
    · exact absurd ⟨le_of_not_lt h2, h3⟩ h4
    · exact absurd h5.2 h3
  refine ⟨heq, ?_, by norm_num [freqField]⟩
  intro interval evals lineno
  rw [drawFreq, DDict.getitem_fst, heq]
